import Mathlib

/-!
Shallow embedding of the `tmx` parser-combinator engine
(`src/parser.rs`, `src/range.rs`, `src/result.rs`).

A Rust `Parser<'a, I, O>` wraps a function
`(&'a [I], usize) -> Result<(O, usize), Error>`; we embed it as
`List I → Nat → Except Error (O × Nat)`.  The `repeat` combinator's
internal `loop` is not structurally terminating (the source loop can in
fact diverge), so it is embedded with explicit fuel: `none` means the
fuel ran out, i.e. the source loop has not returned after that many
iterations.  Rust slice indexing `input[start..end]` panics when out of
bounds; `collect` is therefore embedded with an `Option` outcome where
`none` models the panic (abort), distinct from a returned `Error`.
-/

namespace Tmx

/-- The error type of `src/result.rs` (`enum Error`). -/
inductive Error : Type where
  | Incomplete : Error
  | Expect : String → Nat → Error → Error
  | Custom : String → Nat → Option Error → Error

/-- A parse function, the content of Rust `Parser<'a, I, O>`:
`(&'a [I], usize) -> Result<(O, usize), Error>`. -/
def ParserF (I O : Type) : Type := List I → Nat → Except Error (O × Nat)

/-- `Bound` of `src/range.rs` (stored by value instead of by reference). -/
inductive Bound : Type where
  | Included : Nat → Bound
  | Excluded : Nat → Bound
  | Unbounded : Bound

/-- A `RangeArgument<usize>` value: what `repeat` can query, namely the two
bounds returned by `start()` and `end()` (`stop` here, since `end` is a
Lean keyword). -/
structure RangeArg : Type where
  start : Bound
  stop : Bound

/-- `impl RangeArgument for Range<T>` (`m..n`): `start()` is `Included(m)`
and `end()` is `Included(n)` in the source (not `Excluded(n)`). -/
def rangeOf (m n : Nat) : RangeArg := ⟨Bound.Included m, Bound.Included n⟩

/-- `impl RangeArgument for RangeFrom<T>` (`m..`): `start()` is
`Included(m)`, `end()` is `Unbounded`. -/
def rangeFrom (m : Nat) : RangeArg := ⟨Bound.Included m, Bound.Unbounded⟩

/-- `impl RangeArgument for RangeTo<T>` (`..n`): `start()` is `Unbounded`,
`end()` is `Excluded(n)`. -/
def rangeTo (n : Nat) : RangeArg := ⟨Bound.Unbounded, Bound.Excluded n⟩

/-- `impl RangeArgument for RangeFull` (`..`). -/
def rangeFull : RangeArg := ⟨Bound.Unbounded, Bound.Unbounded⟩

/-- `epsilon()`: always succeeds with `()` at the start offset. -/
def epsilon {I : Type} : ParserF I Unit := fun _ start => Except.ok ((), start)

/-- `next()`: as written in the source it matches on `input.iter().next()`
(the first element of the whole slice, independent of `start`); on
`Some(it)` it returns `(it.clone(), start + 1)`, on `None` it returns
`Err(Error::Incomplete)`. -/
def next {I : Type} : ParserF I I := fun input start =>
  match input.head? with
  | some it => Except.ok (it, start + 1)
  | none => Except.error Error.Incomplete

/-- `sym(t)`: matches on `input.get(start)`; succeeds iff that element
exists and equals `t`, returning it with end offset `start + 1`. -/
def sym {I : Type} [DecidableEq I] (t : I) : ParserF I I := fun input start =>
  match input.get? start with
  | some s => if s = t then Except.ok (s, start + 1) else Except.error Error.Incomplete
  | none => Except.error Error.Incomplete

/-- The loop of `seq(t)`: `for index in 0..t.len()` checks
`input.get(start + index)` against `t[index]`, returning `Err` on the
first mismatch or missing element. -/
def seqCheck {I : Type} [DecidableEq I] (input : List I) : List I → Nat → Bool
  | [], _ => true
  | x :: rest, pos =>
    match input.get? pos with
    | some s => if s = x then seqCheck input rest (pos + 1) else false
    | none => false

/-- `seq(t)`: succeeds iff every element of `t` matches the input
position-by-position from `start`; output is `t` itself with end offset
`start + t.len()`. -/
def seq {I : Type} [DecidableEq I] (t : List I) : ParserF I (List I) := fun input start =>
  if seqCheck input t start then Except.ok (t, start + t.length) else Except.error Error.Incomplete

/-- `map(f)`: transforms the output on success, propagates errors. -/
def map {I O U : Type} (p : ParserF I O) (f : O → U) : ParserF I U := fun input start =>
  match p input start with
  | Except.ok (res, e) => Except.ok (f res, e)
  | Except.error err => Except.error err

/-- `trace(trace_fn)`: on success invokes the observer and passes the
result through; the catch-all arm `_ => Err(Error::Incomplete)` replaces
any failure with `Incomplete`. -/
def trace {I O : Type} (p : ParserF I O) (f : O × Nat × Nat → Unit) : ParserF I O :=
  fun input start =>
    match p input start with
    | Except.ok (output, e) =>
      let _ := f (output, start, e)
      Except.ok (output, e)
    | Except.error _ => Except.error Error.Incomplete

/-- `decide(decide_fn)`: keeps a success whose output satisfies the
predicate; everything else becomes `Err(Error::Incomplete)`. -/
def decide {I O : Type} (p : ParserF I O) (f : O → Bool) : ParserF I O := fun input start =>
  match p input start with
  | Except.ok (res, e) => if f res then Except.ok (res, e) else Except.error Error.Incomplete
  | Except.error _ => Except.error Error.Incomplete

/-- `convert(convert_fn)`: propagates inner errors (`and_then`); a
conversion failure becomes `Err(Error::Incomplete)`. -/
def convert {I O U E : Type} (p : ParserF I O) (f : O → Except E U) : ParserF I U :=
  fun input start =>
    match p input start with
    | Except.ok (res, e) =>
      match f res with
      | Except.ok u => Except.ok (u, e)
      | Except.error _ => Except.error Error.Incomplete
    | Except.error err => Except.error err

/-- `opt()`: wraps a success in `Some`; a failure becomes `Ok((None, start))`. -/
def opt {I O : Type} (p : ParserF I O) : ParserF I (Option O) := fun input start =>
  match p input start with
  | Except.ok (res, e) => Except.ok (some res, e)
  | Except.error _ => Except.ok (none, start)

/-- Rust range slicing `&input[start..e]`: defined exactly when
`start ≤ e ≤ input.len()`; out of bounds it panics, modelled as `none`. -/
def sliceRange {I : Type} (input : List I) (start e : Nat) : Option (List I) :=
  if start ≤ e ∧ e ≤ input.length then some ((input.drop start).take (e - start)) else none

/-- `collect()`: on success of the inner parser returns
`(&input[start..end], end)`.  The outcome is wrapped in `Option`: `none`
models the panic of the slice indexing when `end` is out of bounds. -/
def collect {I O : Type} (p : ParserF I O) (input : List I) (start : Nat) :
    Option (Except Error (List I × Nat)) :=
  match p input start with
  | Except.ok (_, e) =>
    match sliceRange input start e with
    | some s => some (Except.ok (s, e))
    | none => none
  | Except.error err => some (Except.error err)

/-- The body of `repeat`'s `loop`, one fuel unit per iteration.  State:
`start`, the accumulated `result`, and the match count `index`, exactly as
in the source; `none` means the loop has not returned within `fuel`
iterations.  On an inner failure the loop returns `Ok((result, start))`
when `range.end()` is `Unbounded` and `Err(Error::Incomplete)` otherwise;
after an inner success it pushes the output, advances `start`, increments
`index`, and returns `Ok` when `Excluded(max)` has `max ≤ index` or
`Included(max)` has `max < index`. -/
def repeatLoop {I O : Type} (p : ParserF I O) (r : RangeArg) :
    Nat → List I → Nat → List O → Nat → Option (Except Error (List O × Nat))
  | 0, _, _, _, _ => none
  | fuel + 1, input, start, result, index =>
    match p input start with
    | Except.ok (output, e) =>
      match r.stop with
      | Bound.Excluded max =>
        if max ≤ index + 1 then some (Except.ok (result ++ [output], e))
        else repeatLoop p r fuel input e (result ++ [output]) (index + 1)
      | Bound.Included max =>
        if max < index + 1 then some (Except.ok (result ++ [output], e))
        else repeatLoop p r fuel input e (result ++ [output]) (index + 1)
      | Bound.Unbounded => repeatLoop p r fuel input e (result ++ [output]) (index + 1)
    | Except.error _ =>
      match r.stop with
      | Bound.Unbounded => some (Except.ok (result, start))
      | _ => some (Except.error Error.Incomplete)

/-- `repeat(range)`: returns `Ok((vec![], start))` immediately when
`range.end()` is `Included(0)`, otherwise enters the loop with empty
accumulator and count 0. -/
def «repeat» {I O : Type} (p : ParserF I O) (r : RangeArg) (fuel : Nat)
    (input : List I) (start : Nat) : Option (Except Error (List O × Nat)) :=
  match r.stop with
  | Bound.Included 0 => some (Except.ok ([], start))
  | _ => repeatLoop p r fuel input start [] 0

/-- `A & B` (`bitand`): run `A`, then `B` from `A`'s end offset; pair the
outputs; `and_then`/`map` propagate the first error. -/
def bitand {I O U : Type} (p : ParserF I O) (q : ParserF I U) : ParserF I (O × U) :=
  fun input start =>
    match p input start with
    | Except.ok (o, e) =>
      match q input e with
      | Except.ok (u, e2) => Except.ok ((o, u), e2)
      | Except.error err => Except.error err
    | Except.error err => Except.error err

/-- `A | B` (`bitor`): return `A`'s success, otherwise run `B` from the
original start offset. -/
def bitor {I O : Type} (p q : ParserF I O) : ParserF I O := fun input start =>
  match p input start with
  | Except.ok (res, e) => Except.ok (res, e)
  | Except.error _ => q input start

/-- `A << B` (`shl`): sequence keeping `A`'s output at `B`'s end offset. -/
def shl {I O U : Type} (p : ParserF I O) (q : ParserF I U) : ParserF I O :=
  fun input start =>
    match p input start with
    | Except.ok (res, e) =>
      match q input e with
      | Except.ok (_, e2) => Except.ok (res, e2)
      | Except.error err => Except.error err
    | Except.error err => Except.error err

/-- `A >> B` (`shr`): sequence keeping `B`'s output. -/
def shr {I O U : Type} (p : ParserF I O) (q : ParserF I U) : ParserF I U :=
  fun input start =>
    match p input start with
    | Except.ok (_, e) =>
      match q input e with
      | Except.ok (res, e2) => Except.ok (res, e2)
      | Except.error err => Except.error err
    | Except.error err => Except.error err

/-- A user-constructed parser (via `Parser::new`) that always fails with an
`Expect` error, as §4.6 of the spec anticipates consumers doing. -/
def failExpect : ParserF Nat Nat := fun _ _ =>
  Except.error (Error.Expect "digit" 0 Error.Incomplete)

/-- From offset `start`, `p` succeeds `l.length` consecutive times
producing the outputs `l` and reaching offset `stop`, where `p` then
fails: the exact situation "the inner parser fails after `k` successful
matches". -/
inductive FailsAfter {I O : Type} (p : ParserF I O) (input : List I) :
    Nat → List O → Nat → Prop where
  | done : ∀ (start : Nat) (err : Error),
      p input start = Except.error err → FailsAfter p input start [] start
  | step : ∀ (start : Nat) (o : O) (e : Nat) (l : List O) (stop : Nat),
      p input start = Except.ok (o, e) → FailsAfter p input e l stop →
      FailsAfter p input start (o :: l) stop

end Tmx

open Tmx

/-- Claim C1: the spec says `next()` succeeds iff an element exists at the
current offset, with output the element at that offset, and fails with
`Incomplete` at end-of-input (start ≥ input length).  The code instead
inspects `input.iter().next()`, i.e. the first element of the whole slice:
at offset 1 of `[5, 7]` it returns `5` (not `7`), and at offset 1 of the
one-element slice `[5]` (end-of-input) it still succeeds with `(5, 2)`. -/
theorem next_returns_first_element_ignoring_offset :
    Tmx.next (I := Nat) [5, 7] 1 = Except.ok (5, 2) ∧
    Tmx.next (I := Nat) [5] 1 = Except.ok (5, 2) ∧
    ([5] : List Nat).length ≤ 1 :=
  ⟨rfl, rfl, by decide⟩

/-- Claim C2: the spec says `repeat(1..)` fails iff zero matches occur.
The code never consults `range.start()`: with inner parser `sym(0)` failing
immediately on input `[1]`, `repeat(1..)` (lower bound 1, upper bound
`Unbounded`) returns `Ok` with the empty sequence at the start offset, for
every fuel bound, instead of failing. -/
theorem repeat_from_one_zero_matches_succeeds (fuel : Nat) :
    Tmx.«repeat» (Tmx.sym (0 : Nat)) (rangeFrom 1) (fuel + 1) [1] 0 =
      some (Except.ok ([], 0)) := rfl

/-- Claim C5: the spec says `repeat(0..1)` never accumulates more than one
match.  But `range.rs` reports the upper bound of `0..1` as `Included(1)`
(not `Excluded(1)`), and an `Included(max)` bound only stops at
`max < index`: with inner parser `sym(0)` on input `[0, 0]`, the loop
performs a second inner parse and succeeds with TWO matches. -/
theorem repeat_zero_one_collects_two_matches :
    (rangeOf 0 1).stop = Bound.Included 1 ∧
    Tmx.«repeat» (Tmx.sym (0 : Nat)) (rangeOf 0 1) 2 [0, 0] 0 =
      some (Except.ok ([0, 0], 2)) ∧
    1 < ([0, 0] : List Nat).length :=
  ⟨rfl, rfl, by decide⟩

/-- Claim C6: the spec says failure is always a returned `Error` value,
never an abort, and in particular `collect`'s slice `input[start..end]` is
in bounds for every end offset an inner parser can produce.  Because
`next()` ignores its offset, `next() >> next()` on the one-element input
`[0]` succeeds with end offset `2 > 1`, and `collect` then evaluates
`input[0..2]` on a length-1 slice — an out-of-bounds panic, modelled here
as the `none` outcome. -/
theorem collect_panics_out_of_bounds :
    shr (Tmx.next (I := Nat)) Tmx.next [0] 0 = Except.ok (0, 2) ∧
    ([0] : List Nat).length < 2 ∧
    collect (shr (Tmx.next (I := Nat)) Tmx.next) [0] 0 = none :=
  ⟨rfl, by decide, rfl⟩

/-- Claim C10: `seq(&[])` succeeds on every input and at every start
offset (including offsets past the end of the input), consuming nothing
and returning the empty slice: the source loop over `0..t.len()` runs zero
iterations and returns `Ok((t, start + 0))`. -/
theorem seq_nil_always_succeeds {I : Type} [DecidableEq I] (input : List I) (start : Nat) :
    Tmx.seq [] input start = Except.ok ([], start) := rfl

/-- Witness for C10 at a concrete input, with a start offset past the end
of the input. -/
theorem seq_nil_always_succeeds_witness :
    Tmx.seq ([] : List Nat) [3, 4] 7 = Except.ok ([], 7) :=
  seq_nil_always_succeeds [3, 4] 7

/-- On the nonempty input `[0]`, `next()` succeeds at every offset (it only
looks at the head of the slice), so the `repeat` loop with an `Unbounded`
upper bound never takes its return branches: no amount of fuel produces a
result. -/
theorem repeatLoop_next_unbounded_no_result :
    ∀ (fuel start index : Nat) (acc : List Nat),
      repeatLoop (Tmx.next (I := Nat)) rangeFull fuel [0] start acc index = none := by
  intro fuel
  induction fuel with
  | zero => intro start index acc; rfl
  | succ n ih =>
    intro start index acc
    simpa only [repeatLoop, Tmx.next, List.head?, rangeFull] using
      ih (start + 1) (index + 1) (acc ++ [0])

/-- Claim C3: the spec says a full parse of a bounded input runs to
completion.  `repeat(0..)` over `next()` on the bounded nonempty input
`[0]` does not: `next()` succeeds at every offset, so the source loop
iterates forever — embedded with fuel, the loop yields no result at any
fuel bound. -/
theorem repeat_unbounded_next_diverges (fuel : Nat) :
    Tmx.«repeat» (Tmx.next (I := Nat)) rangeFull fuel [0] 0 = none := by
  simpa only [Tmx.«repeat», rangeFull] using
    repeatLoop_next_unbounded_no_result fuel 0 0 []

/-- Counterexample to Claim C4: `trace` does not propagate failures
unchanged.  The parser `failExpect` fails with an `Expect` error, but its
trace fails with `Incomplete`, a different error. -/
theorem trace_replaces_error :
    failExpect [] 0 = Except.error (Error.Expect "digit" 0 Error.Incomplete) ∧
    Tmx.trace failExpect (fun _ => ()) [] 0 = Except.error Error.Incomplete ∧
    Error.Incomplete ≠ Error.Expect "digit" 0 Error.Incomplete :=
  ⟨rfl, rfl, fun h => Error.noConfusion h⟩

/-- Claim C4 as amended: on success, `trace` invokes the observer and
passes the result and end offset through unchanged; on failure it fails
with `Error::Incomplete` regardless of the inner parser's error (which
coincides with that error exactly when it is `Incomplete`, as is the case
for every parser built from this library's own combinators). -/
theorem trace_passthrough_success_incomplete_on_failure {I O : Type}
    (p : ParserF I O) (f : O × Nat × Nat → Unit) (input : List I) (start : Nat) :
    (∀ (o : O) (e : Nat), p input start = Except.ok (o, e) →
      Tmx.trace p f input start = Except.ok (o, e)) ∧
    (∀ (err : Error), p input start = Except.error err →
      Tmx.trace p f input start = Except.error Error.Incomplete) := by
  constructor
  · intro o e h
    simp [Tmx.trace, h]
  · intro err h
    simp [Tmx.trace, h]

/-- Witness for the amended C4 at concrete parsers: a success passed
through, and an `Expect` failure collapsed to `Incomplete`. -/
theorem trace_passthrough_witness :
    Tmx.trace (epsilon (I := Nat)) (fun _ => ()) [1] 0 = Except.ok ((), 0) ∧
    Tmx.trace failExpect (fun _ => ()) [1] 0 = Except.error Error.Incomplete :=
  ⟨(trace_passthrough_success_incomplete_on_failure epsilon (fun _ => ()) [1] 0).1 () 0 rfl,
   (trace_passthrough_success_incomplete_on_failure failExpect (fun _ => ()) [1] 0).2
     (Error.Expect "digit" 0 Error.Incomplete) rfl⟩

/-- With an `Unbounded` upper bound the loop can only ever return through
its `Ok` branches: any result it produces, at any fuel, is a success. -/
theorem repeatLoop_unbounded_ok {I O : Type} (p : ParserF I O) (input : List I) :
    ∀ (fuel start index : Nat) (acc : List O) (r : Except Error (List O × Nat)),
      repeatLoop p rangeFull fuel input start acc index = some r →
      ∃ (l : List O) (e : Nat), r = Except.ok (l, e) := by
  intro fuel
  induction fuel with
  | zero =>
    intro start index acc r h
    simp [repeatLoop] at h
  | succ n ih =>
    intro start index acc r h
    rw [repeatLoop] at h
    cases hp : p input start with
    | ok oe =>
      obtain ⟨o, e⟩ := oe
      rw [hp] at h
      exact ih e (index + 1) (acc ++ [o]) r h
    | error err =>
      rw [hp] at h
      refine ⟨acc, start, ?_⟩
      have := Option.some.inj h
      exact this.symm

/-- When the inner parser fails after producing `l` from `start`, ending
at `stop`, the loop with an `Unbounded` upper bound and enough fuel
returns `Ok` with the accumulator extended by exactly `l`, at `stop`. -/
theorem repeatLoop_unbounded_of_failsAfter {I O : Type} (p : ParserF I O) (input : List I) :
    ∀ (start : Nat) (l : List O) (stop : Nat), FailsAfter p input start l stop →
      ∀ (fuel : Nat), l.length < fuel → ∀ (acc : List O) (index : Nat),
        repeatLoop p rangeFull fuel input start acc index =
          some (Except.ok (acc ++ l, stop)) := by
  intro start l stop h
  induction h with
  | done s err he =>
    intro fuel hf acc index
    cases fuel with
    | zero => simp at hf
    | succ n =>
      rw [repeatLoop, he]
      simp [rangeFull]
  | step s o e l2 st hp hrest ih =>
    intro fuel hf acc index
    cases fuel with
    | zero => simp at hf
    | succ n =>
      rw [repeatLoop, hp]
      have hn : l2.length < n := by
        simpa [Nat.succ_lt_succ_iff] using hf
      have := ih n hn (acc ++ [o]) (index + 1)
      simpa [rangeFull, List.append_assoc] using this

/-- Claim C7: `repeat(0..)` never fails — any result the loop returns is a
success — and when the inner parser fails after `k ≥ 0` successful matches
(witnessed by `FailsAfter`, with outputs `l` and pre-failure offset
`stop`), the repetition succeeds with exactly those `k` outputs at that
offset, given fuel for the `k` successes and the final failing attempt. -/
theorem repeat_unbounded_never_fails {I O : Type} (p : ParserF I O)
    (input : List I) (start : Nat) :
    (∀ (fuel : Nat) (r : Except Error (List O × Nat)),
      Tmx.«repeat» p rangeFull fuel input start = some r →
      ∃ (l : List O) (e : Nat), r = Except.ok (l, e)) ∧
    (∀ (l : List O) (stop : Nat), FailsAfter p input start l stop →
      ∀ (fuel : Nat), l.length < fuel →
        Tmx.«repeat» p rangeFull fuel input start = some (Except.ok (l, stop))) := by
  constructor
  · intro fuel r h
    rw [Tmx.«repeat»] at h
    exact repeatLoop_unbounded_ok p input fuel start 0 [] r h
  · intro l stop h fuel hf
    rw [Tmx.«repeat»]
    simpa using repeatLoop_unbounded_of_failsAfter p input start l stop h fuel hf [] 0

/-- Witness for C7: `sym(1).repeat(0..)` on `[1, 0]` matches once and then
fails, so with fuel 2 the repetition succeeds with that single match at
offset 1. -/
theorem repeat_unbounded_never_fails_witness :
    Tmx.«repeat» (Tmx.sym (1 : Nat)) rangeFull 2 [1, 0] 0 =
      some (Except.ok ([1], 1)) :=
  (repeat_unbounded_never_fails (Tmx.sym 1) [1, 0] 0).2 [1] 1
    (FailsAfter.step 0 1 1 [] 1 (by rfl) (FailsAfter.done 1 Error.Incomplete (by rfl)))
    2 (by decide)

/-- Claim C8: if `A` fails at a position, `(A | B)` applied there yields
exactly `B` applied from the original start offset; if `A` succeeds,
`(A | B)` returns `A`'s result without consulting `B`. -/
theorem bitor_alternation {I O : Type} (a b : ParserF I O) (input : List I) (start : Nat) :
    (∀ (err : Error), a input start = Except.error err →
      bitor a b input start = b input start) ∧
    (∀ (o : O) (e : Nat), a input start = Except.ok (o, e) →
      bitor a b input start = Except.ok (o, e)) := by
  constructor
  · intro err h
    simp [bitor, h]
  · intro o e h
    simp [bitor, h]

/-- Witness for C8: `sym(0) | sym(1)` on `[1]` restarts `B` at offset 0
after `A` fails, and `sym(1) | sym(0)` returns `A`'s own success. -/
theorem bitor_alternation_witness :
    bitor (Tmx.sym 0) (Tmx.sym (1 : Nat)) [1] 0 = Tmx.sym 1 [1] 0 ∧
    bitor (Tmx.sym 1) (Tmx.sym (0 : Nat)) [1] 0 = Except.ok (1, 1) :=
  ⟨(bitor_alternation (Tmx.sym 0) (Tmx.sym 1) [1] 0).1 Error.Incomplete rfl,
   (bitor_alternation (Tmx.sym 1) (Tmx.sym 0) [1] 0).2 1 1 rfl⟩

/-- Claim C9: the sequencing operators `&`, `<<`, `>>` propagate the first
failing sub-parser's error untouched — whether `A` fails at the start
offset or `B` fails at `A`'s end offset, the combined parser fails with
exactly that error. -/
theorem seq_ops_propagate_first_error {I O U : Type} (a : ParserF I O)
    (b : ParserF I U) (input : List I) (start : Nat) :
    (∀ (err : Error), a input start = Except.error err →
      bitand a b input start = Except.error err ∧
      shl a b input start = Except.error err ∧
      shr a b input start = Except.error err) ∧
    (∀ (o : O) (e : Nat) (err : Error), a input start = Except.ok (o, e) →
      b input e = Except.error err →
      bitand a b input start = Except.error err ∧
      shl a b input start = Except.error err ∧
      shr a b input start = Except.error err) := by
  constructor
  · intro err h
    refine ⟨?_, ?_, ?_⟩ <;> simp [bitand, shl, shr, h]
  · intro o e err ha hb
    refine ⟨?_, ?_, ?_⟩ <;> simp [bitand, shl, shr, ha, hb]

/-- Witness for C9 at concrete parsers: a failure of `A` propagated by
`&`, and a failure of `B` (at `A`'s end offset) propagated by `>>`. -/
theorem seq_ops_propagate_first_error_witness :
    bitand (Tmx.sym 1) (Tmx.sym (1 : Nat)) [0] 0 = Except.error Error.Incomplete ∧
    shr (Tmx.sym 0) (Tmx.sym (1 : Nat)) [0] 0 = Except.error Error.Incomplete :=
  ⟨((seq_ops_propagate_first_error (Tmx.sym 1) (Tmx.sym 1) [0] 0).1
      Error.Incomplete (by rfl)).1,
   ((seq_ops_propagate_first_error (Tmx.sym 0) (Tmx.sym 1) [0] 0).2
      0 1 Error.Incomplete (by rfl) (by rfl)).2.2⟩
